import Mathlib

/-!
Verification of the Hyperliquid funding-rate aggregation core.

This file is a shallow embedding of the repository's core data flow:

* `backend/hyperliquid_service.py` — the `HyperliquidService` class:
  `fetch_meta_and_contexts`, `fetch_funding_history` (its payload
  construction), `calculate_average_funding_rate`, and
  `get_top_funding_rate_coins` (the filter/average/sort/truncate pipeline).
* `backend/server.py` — `update_hyperliquid_data` (the refresh that writes
  the MongoDB snapshot) and the `/api/hyperliquid/top-coins` handler
  `get_hyperliquid_top_coins` (the staleness-aware read path).

Modelling conventions:

* Python floats parsed from the exchange's decimal-strings are modelled as
  rationals (`ℚ`); a context/history string value is either a parsable
  number (`StrVal.num`) or unparsable garbage (`StrVal.bad`), and a JSON
  key that may be absent is an `Option StrVal` (`none` = key missing).
* A Python expression that raises inside the per-coin `try` block is
  modelled by `Option`/`Except` `none`/`error`; the `continue` in the
  `except (ValueError, KeyError, TypeError)` arm is `Option.none`
  propagation.
* Network effects are replaced by their already-determined results: the
  bulk call result is an `UpstreamResponse` (HTTP status plus a parsed
  body) and the per-coin funding-history fetches are a function
  `histOf : String → List Entry` (a fetch that answered non-200 already
  yields `[]` inside `fetch_funding_history`, so `[]` covers that case).
* Timestamps are rationals measured in seconds; the one-hour staleness
  bound `total_seconds() > 3600` and `timedelta(hours=1)` both become
  `3600`.
* The MongoDB single-document collection `hyperliquid_top_coins` is an
  `Option Snapshot`; its operations (`delete_many({})`, `insert_one`) are
  recorded as an explicit `DbOp` trace so that "no write happened" is a
  provable statement.
-/

namespace Hyperliquid

/-- A decimal-string field value as received from the exchange: either a
string that `float(...)` parses to a rational, or one it raises on. -/
inductive StrVal where
  | num (q : ℚ)
  | bad
deriving DecidableEq

/-- Model of Python `float(s)` on a decimal-string: `some` the parsed value,
`none` when `float` raises `ValueError`. -/
def parseQ : StrVal → Option ℚ
  | StrVal.num q => some q
  | StrVal.bad => none

/-- One entry of the `univ` list of the `metaAndAssetCtxs` response
(`coin_meta` in the source); only its `name` key is used. -/
structure Meta where
  name : String
deriving DecidableEq

/-- One asset context of the `metaAndAssetCtxs` response. Each field is
`none` when the JSON key is absent (the source reads them with
`context.get(key, "0")`, so absence is observable and defaulted). -/
structure Ctx where
  openInterest : Option StrVal
  markPx : Option StrVal
  dayNtlVlm : Option StrVal
  funding : Option StrVal
deriving DecidableEq

/-- Model of `context.get(key, "0")`: an absent key defaults to the
string "0". -/
def ctxGet (v : Option StrVal) : StrVal := v.getD (StrVal.num 0)

/-- One funding-history entry; `fundingRate` is `none` when the key is
absent (`entry["fundingRate"]` then raises `KeyError`). -/
structure Entry where
  fundingRate : Option StrVal
deriving DecidableEq

/-- Model of `float(entry["fundingRate"])`: `none` on a missing key
(`KeyError`) or an unparsable value (`ValueError`). -/
def parseEntryRate (e : Entry) : Option ℚ :=
  e.fundingRate.bind parseQ

/-- Model of the list comprehension
`[float(entry["fundingRate"]) for entry in funding_history]`: evaluates
left to right and fails (raises) at the first bad entry. -/
def parseRates : List Entry → Option (List ℚ)
  | [] => some []
  | e :: es =>
    match parseEntryRate e, parseRates es with
    | some q, some qs => some (q :: qs)
    | _, _ => none

/-- `HyperliquidService.calculate_average_funding_rate`: returns `0.0` for
an empty history, otherwise the arithmetic mean `sum(rates)/len(rates)`
guarded by `if rates else 0.0`; `none` models a raised parse error. -/
def calculate_average_funding_rate (funding_history : List Entry) : Option ℚ :=
  if funding_history.isEmpty then some 0
  else
    match parseRates funding_history with
    | none => none
    | some rates => some (if rates.isEmpty then 0 else rates.sum / (rates.length : ℚ))

/-- One record of the `eligible_coins` list built by
`get_top_funding_rate_coins` (the dict appended at source lines 153-167). -/
structure Coin where
  coin : String
  avg_funding_rate : ℚ
  avg_funding_rate_pct : ℚ
  annualized_funding_rate : ℚ
  annualized_funding_rate_pct : ℚ
  current_funding_rate : ℚ
  current_funding_rate_annualized : ℚ
  current_funding_rate_annualized_pct : ℚ
  total_7d_funding_pct : ℚ
  open_interest_usd : ℚ
  daily_volume_usd : ℚ
  mark_price : ℚ
  funding_data_points : ℕ
deriving DecidableEq

/-- The body of the `for i, coin_meta in enumerate(univ)` loop of
`get_top_funding_rate_coins` for one metadata/context pair: `none` is any
`continue` (a caught parse exception, a failed liquidity filter, or an
empty funding history), `some` is the dict appended to `eligible_coins`.
The evaluation order follows the source: parse `openInterest`, `markPx`,
`dayNtlVlm`; liquidity filter; fetch history and test emptiness; average;
parse `funding`; sum for `total_7d_funding_pct`; build the record. -/
def process_coin (minOI minVol : ℚ) (histOf : String → List Entry)
    (m : Meta) (ctx : Ctx) : Option Coin := do
  let coin_name := m.name
  let open_interest ← parseQ (ctxGet ctx.openInterest)
  let mark_price ← parseQ (ctxGet ctx.markPx)
  let daily_volume ← parseQ (ctxGet ctx.dayNtlVlm)
  let open_interest_usd := open_interest * mark_price
  let daily_volume_usd := daily_volume
  if open_interest_usd < minOI ∨ daily_volume_usd < minVol then none else do
  let funding_history := histOf coin_name
  if funding_history.isEmpty then none else do
  let avg_funding_rate ← calculate_average_funding_rate funding_history
  let annualized_funding_rate := avg_funding_rate * 3 * 365
  let current_funding_rate ← parseQ (ctxGet ctx.funding)
  let rates ← parseRates funding_history
  let total_7d_funding := rates.sum
  some
    { coin := coin_name
      avg_funding_rate := avg_funding_rate
      avg_funding_rate_pct := avg_funding_rate * 100
      annualized_funding_rate := annualized_funding_rate
      annualized_funding_rate_pct := annualized_funding_rate * 100
      current_funding_rate := current_funding_rate
      current_funding_rate_annualized := current_funding_rate * 3 * 365
      current_funding_rate_annualized_pct := current_funding_rate * 3 * 365 * 100
      total_7d_funding_pct := total_7d_funding * 100
      open_interest_usd := open_interest_usd
      daily_volume_usd := daily_volume_usd
      mark_price := mark_price
      funding_data_points := funding_history.length }

/-- The loop body at index `i`: the source guard `if i >= len(contexts):
continue` is the `contexts[i]? = none` case. -/
def process_pair (minOI minVol : ℚ) (histOf : String → List Entry)
    (univ : List Meta) (contexts : List Ctx) (i : ℕ) : Option Coin :=
  match univ[i]?, contexts[i]? with
  | some m, some c => process_coin minOI minVol histOf m c
  | _, _ => none

/-- The `eligible_coins` list built by the enumerate loop of
`get_top_funding_rate_coins` (source lines 94-175). -/
def eligible_coins (minOI minVol : ℚ) (histOf : String → List Entry)
    (univ : List Meta) (contexts : List Ctx) : List Coin :=
  (List.range univ.length).filterMap (process_pair minOI minVol histOf univ contexts)

/-- The comparison realised by
`eligible_coins.sort(key=lambda x: x["annualized_funding_rate"], reverse=True)`:
`a` may stay before `b` iff `b`'s key does not exceed `a`'s. CPython's
sort is stable, also with `reverse=True`, so the sort is a stable merge
sort under this relation. -/
def coinLE (a b : Coin) : Bool :=
  decide (b.annualized_funding_rate ≤ a.annualized_funding_rate)

/-- The in-place stable descending sort of `eligible_coins`
(source line 178). -/
def sort_eligible (l : List Coin) : List Coin := l.mergeSort coinLE

/-- The pure tail of `get_top_funding_rate_coins` (source lines 94-184):
build `eligible_coins`, sort descending by `annualized_funding_rate`,
truncate to `top_n`. -/
def rank (minOI minVol : ℚ) (top_n : ℕ) (histOf : String → List Entry)
    (univ : List Meta) (contexts : List Ctx) : List Coin :=
  (sort_eligible (eligible_coins minOI minVol histOf univ contexts)).take top_n

/-- Errors raised out of the service pipeline.  `upstreamError` is the
`raise Exception(f"API request failed: ...")` of `fetch_meta_and_contexts`
for a non-200 status (spec taxonomy: `UpstreamError`). -/
inductive PipelineError where
  | upstreamError (status : ℕ)
deriving DecidableEq

/-- The outcome of the bulk `metaAndAssetCtxs` POST: HTTP status plus the
parsed body (`univ`, `contexts`) that would be extracted on success. -/
structure UpstreamResponse where
  status : ℕ
  univ : List Meta
  contexts : List Ctx

/-- `HyperliquidService.fetch_meta_and_contexts`: raises on a non-200
status, otherwise returns the positionally aligned univ and context
lists. -/
def fetch_meta_and_contexts (resp : UpstreamResponse) :
    Except PipelineError (List Meta × List Ctx) :=
  if resp.status ≠ 200 then Except.error (PipelineError.upstreamError resp.status)
  else Except.ok (resp.univ, resp.contexts)

/-- `HyperliquidService.get_top_funding_rate_coins`: the bulk fetch
followed by the pure ranking pipeline; an error of the fetch propagates
out of the coroutine. -/
def get_top_funding_rate_coins (minOI minVol : ℚ) (top_n : ℕ)
    (resp : UpstreamResponse) (histOf : String → List Entry) :
    Except PipelineError (List Coin) :=
  match fetch_meta_and_contexts resp with
  | Except.error e => Except.error e
  | Except.ok (univ, contexts) =>
    Except.ok (rank minOI minVol top_n histOf univ contexts)

/-- The JSON payload built by `HyperliquidService.fetch_funding_history`;
`endTime` is `none` when the key is left out of the dict. -/
structure FundingHistoryPayload where
  type : String
  coin : String
  startTime : ℤ
  endTime : Option ℤ
deriving DecidableEq

/-- Python truthiness of an `Optional[int]` argument: `None` and `0` are
falsy, every other integer is truthy. -/
def pyTruthy : Option ℤ → Bool
  | none => false
  | some t => t != 0

/-- The payload construction of `fetch_funding_history` (source lines
39-45): `endTime` is added to the dict only when `if end_time:` holds. -/
def fetch_funding_history_payload (coin : String) (start_time : ℤ)
    (end_time : Option ℤ) : FundingHistoryPayload :=
  let payload : FundingHistoryPayload :=
    { type := "fundingHistory", coin := coin, startTime := start_time, endTime := none }
  if pyTruthy end_time then { payload with endTime := end_time } else payload

/-- The single document of the `hyperliquid_top_coins` collection. -/
structure Snapshot where
  coins : List Coin
  last_updated : ℚ
  next_update : ℚ
deriving DecidableEq

/-- The store operations `update_hyperliquid_data` may perform:
`db.hyperliquid_top_coins.delete_many({})` and `insert_one`. -/
inductive DbOp where
  | deleteAll
  | insertSnapshot (s : Snapshot)
deriving DecidableEq

/-- `server.update_hyperliquid_data`: run the service pipeline with its
default parameters and replace the stored document (delete-then-insert).
Its `try/except Exception` catches every failure after only logging it, so
the function always returns normally; on failure the store is untouched
and no operation is issued. -/
def update_hyperliquid_data (now : ℚ) (resp : UpstreamResponse)
    (histOf : String → List Entry) (store : Option Snapshot) :
    Option Snapshot × List DbOp :=
  match get_top_funding_rate_coins 10000000 10000000 10 resp histOf with
  | Except.error _ => (store, [])
  | Except.ok coins =>
    let snap : Snapshot := { coins := coins, last_updated := now, next_update := now + 3600 }
    (some snap, [DbOp.deleteAll, DbOp.insertSnapshot snap])

/-- What the `/api/hyperliquid/top-coins` handler answers: the re-raised
`HTTPException(503)`, a `success=True` body carrying the stored snapshot,
or the generic `except Exception` body (`success=False` with an error
string). -/
inductive ReadOutcome where
  | http503
  | okResponse (coins : List Coin) (last_updated next_update : ℚ)
  | errorResponse
deriving DecidableEq

/-- The observable result of one handler call: the response, the store it
leaves behind, and how many refresh attempts (`update_hyperliquid_data`
invocations, each one bulk upstream fetch) it made. -/
structure ReadResult where
  outcome : ReadOutcome
  store : Option Snapshot
  refreshes : ℕ
deriving DecidableEq

/-- The `/api/hyperliquid/top-coins` handler (source lines 304-365):
`find_one`; refresh when `force_refresh or not cached_data`; 503 when
still no document; a second refresh when the document is older than one
hour; answer from whatever document is then stored. -/
def get_hyperliquid_top_coins (now : ℚ) (resp : UpstreamResponse)
    (histOf : String → List Entry) (force_refresh : Bool)
    (store : Option Snapshot) : ReadResult :=
  let first : Option Snapshot × ℕ :=
    if force_refresh || store.isNone then
      ((update_hyperliquid_data now resp histOf store).1, 1)
    else (store, 0)
  match first with
  | (none, n) => { outcome := ReadOutcome.http503, store := none, refreshes := n }
  | (some snap, n) =>
    if now - snap.last_updated > 3600 then
      match (update_hyperliquid_data now resp histOf (some snap)).1 with
      | some snap2 =>
        { outcome := ReadOutcome.okResponse snap2.coins snap2.last_updated snap2.next_update
          store := some snap2, refreshes := n + 1 }
      | none =>
        { outcome := ReadOutcome.errorResponse, store := none, refreshes := n + 1 }
    else
      { outcome := ReadOutcome.okResponse snap.coins snap.last_updated snap.next_update
        store := some snap, refreshes := n }

/-! ### Helper lemmas about the pipeline -/

/-- Structural form of the enumerate loop: the source pairs `univ` and
`contexts` positionally and stops producing records once either list is
exhausted (`if i >= len(contexts): continue` skips every overflowing
index). -/
def eligible_coins_zip (minOI minVol : ℚ) (histOf : String → List Entry) :
    List Meta → List Ctx → List Coin
  | [], _ => []
  | _ :: _, [] => []
  | m :: ms, c :: cs =>
    match process_coin minOI minVol histOf m c with
    | some coin => coin :: eligible_coins_zip minOI minVol histOf ms cs
    | none => eligible_coins_zip minOI minVol histOf ms cs

theorem eligible_coins_eq_zip (minOI minVol : ℚ) (histOf : String → List Entry) :
    ∀ (univ : List Meta) (contexts : List Ctx),
      eligible_coins minOI minVol histOf univ contexts =
        eligible_coins_zip minOI minVol histOf univ contexts := by
  intro univ
  induction univ with
  | nil =>
    intro contexts
    simp [eligible_coins, eligible_coins_zip]
  | cons m ms ih =>
    intro contexts
    cases contexts with
    | nil =>
      simp only [eligible_coins, eligible_coins_zip]
      rw [List.filterMap_eq_nil_iff]
      intro i _
      simp [process_pair]
    | cons c cs =>
      simp only [eligible_coins, eligible_coins_zip, List.length_cons,
        List.range_succ_eq_map, List.filterMap_cons, List.filterMap_map]
      have hzero : process_pair minOI minVol histOf (m :: ms) (c :: cs) 0 =
          process_coin minOI minVol histOf m c := by
        simp [process_pair]
      have hsucc : (process_pair minOI minVol histOf (m :: ms) (c :: cs)) ∘ Nat.succ =
          process_pair minOI minVol histOf ms cs := by
        funext i
        simp [process_pair, Function.comp]
      rw [hzero, hsucc]
      have ih' := ih cs
      simp only [eligible_coins] at ih'
      rw [ih']
      cases process_coin minOI minVol histOf m c <;> simp

theorem parseRates_length : ∀ {es : List Entry} {qs : List ℚ},
    parseRates es = some qs → qs.length = es.length := by
  intro es
  induction es with
  | nil =>
    intro qs h
    simp only [parseRates] at h
    cases h
    rfl
  | cons e es ih =>
    intro qs h
    simp only [parseRates] at h
    cases he : parseEntryRate e with
    | none => rw [he] at h; exact absurd h (by simp)
    | some q =>
      rw [he] at h
      cases hes : parseRates es with
      | none => rw [hes] at h; exact absurd h (by simp)
      | some qs' =>
        rw [hes] at h
        cases h
        simp [ih hes]

/-- Everything a surviving record of the loop body satisfies. -/
theorem process_coin_spec {minOI minVol : ℚ} {histOf : String → List Entry}
    {m : Meta} {ctx : Ctx} {co : Coin}
    (h : process_coin minOI minVol histOf m ctx = some co) :
    co.coin = m.name ∧
    minOI ≤ co.open_interest_usd ∧
    minVol ≤ co.daily_volume_usd ∧
    histOf m.name ≠ [] ∧
    co.funding_data_points = (histOf m.name).length ∧
    ∃ rates : List ℚ, parseRates (histOf m.name) = some rates ∧
      rates ≠ [] ∧
      co.avg_funding_rate = rates.sum / (rates.length : ℚ) ∧
      co.annualized_funding_rate = co.avg_funding_rate * 3 * 365 := by
  simp only [process_coin, Option.bind_eq_bind, Option.bind_eq_some] at h
  obtain ⟨oi, hoi, px, hpx, vol, hvol, h⟩ := h
  split at h
  · exact absurd h (by simp)
  rename_i hfilter
  push_neg at hfilter
  split at h
  · exact absurd h (by simp)
  rename_i hempty
  simp only [List.isEmpty_iff] at hempty
  simp only [Option.bind_eq_some] at h
  obtain ⟨avg, havg, cur, hcur, rates, hrates, h⟩ := h
  simp only [Option.some.injEq] at h
  subst h
  have hlen := parseRates_length hrates
  have hratesne : rates ≠ [] := by
    intro hnil
    subst hnil
    simp only [List.length_nil] at hlen
    exact hempty (List.length_eq_zero.mp hlen.symm)
  have havg' : avg = rates.sum / (rates.length : ℚ) := by
    unfold calculate_average_funding_rate at havg
    rw [if_neg (by simp [List.isEmpty_iff, hempty]), hrates] at havg
    simp only [Option.some.injEq] at havg
    rw [← havg, if_neg (by simp [List.isEmpty_iff, hratesne])]
  exact ⟨rfl, hfilter.1, hfilter.2, hempty, rfl, rates, hrates, hratesne, havg', rfl⟩

/-- Truncation of the pairing, stated on the structural loop form. -/
theorem eligible_coins_zip_take (minOI minVol : ℚ) (histOf : String → List Entry) :
    ∀ (u : List Meta) (c : List Ctx),
      eligible_coins_zip minOI minVol histOf u c =
        eligible_coins_zip minOI minVol histOf (u.take c.length) c := by
  intro u
  induction u with
  | nil => intro c; simp [eligible_coins_zip]
  | cons m ms ih =>
    intro c
    cases c with
    | nil => rfl
    | cons ct cs =>
      have h2 := ih cs
      simp only [List.length_cons, List.take_succ_cons]
      cases h : process_coin minOI minVol histOf m ct <;>
        simp [eligible_coins_zip, h, ← h2]

/-- Every member of the eligible list is produced by the loop body. -/
theorem mem_eligible_coins_zip {minOI minVol : ℚ} {histOf : String → List Entry} :
    ∀ {u : List Meta} {c : List Ctx} {co : Coin},
      co ∈ eligible_coins_zip minOI minVol histOf u c →
      ∃ m ctx, process_coin minOI minVol histOf m ctx = some co := by
  intro u
  induction u with
  | nil =>
    intro c co h
    simp [eligible_coins_zip] at h
  | cons m ms ih =>
    intro c co h
    cases c with
    | nil => simp [eligible_coins_zip] at h
    | cons ct cs =>
      simp only [eligible_coins_zip] at h
      cases hp : process_coin minOI minVol histOf m ct with
      | some co' =>
        rw [hp] at h
        rcases List.mem_cons.mp h with heq | hmem
        · exact ⟨m, ct, heq ▸ hp⟩
        · exact ih hmem
      | none =>
        rw [hp] at h
        exact ih h

/-- Every member of the ranking output is produced by the loop body. -/
theorem mem_rank {minOI minVol : ℚ} {top_n : ℕ} {histOf : String → List Entry}
    {u : List Meta} {c : List Ctx} {co : Coin}
    (h : co ∈ rank minOI minVol top_n histOf u c) :
    ∃ m ctx, process_coin minOI minVol histOf m ctx = some co := by
  unfold rank at h
  have h1 : co ∈ sort_eligible (eligible_coins minOI minVol histOf u c) :=
    List.take_subset _ _ h
  have h2 : co ∈ eligible_coins minOI minVol histOf u c :=
    (List.mergeSort_perm _ _).mem_iff.mp h1
  rw [eligible_coins_eq_zip] at h2
  exact mem_eligible_coins_zip h2

/-! ### Concrete instances shared by witnesses and counterexamples -/

/-- A funding history of one entry with rate "0", for every coin. -/
def histEx : String → List Entry := fun _ => [{ fundingRate := some (StrVal.num 0) }]

/-- A two-coin metadata universe. -/
def uEx : List Meta := [{ name := "A" }, { name := "B" }]

/-- A context whose four keys are all present with value "0". -/
def ctxZero : Ctx :=
  { openInterest := some (StrVal.num 0), markPx := some (StrVal.num 0),
    dayNtlVlm := some (StrVal.num 0), funding := some (StrVal.num 0) }

/-- Contexts for both coins of `uEx`. -/
def cEx : List Ctx := [ctxZero, ctxZero]

/-- The record the pipeline builds for coin "A" of `uEx`/`cEx`/`histEx`
with zero thresholds. -/
def coinA : Coin :=
  { coin := "A", avg_funding_rate := 0, avg_funding_rate_pct := 0,
    annualized_funding_rate := 0, annualized_funding_rate_pct := 0,
    current_funding_rate := 0, current_funding_rate_annualized := 0,
    current_funding_rate_annualized_pct := 0, total_7d_funding_pct := 0,
    open_interest_usd := 0, daily_volume_usd := 0, mark_price := 0,
    funding_data_points := 1 }

/-- The record the pipeline builds for coin "B" of `uEx`/`cEx`/`histEx`
with zero thresholds. -/
def coinB : Coin := { coinA with coin := "B" }

/-- Evaluation of the eligible list on the two-coin example with zero
thresholds. -/
theorem eligible_coins_ex_eval : eligible_coins 0 0 histEx uEx cEx = [coinA, coinB] := by
  rw [eligible_coins_eq_zip]
  simp [eligible_coins_zip, uEx, cEx, process_coin, parseQ, ctxGet, ctxZero, histEx,
    calculate_average_funding_rate, parseRates, parseEntryRate, coinA, coinB]

/-- Evaluation of the whole ranking on the two-coin example. -/
theorem rank_ex_eval : rank 0 0 5 histEx uEx cEx = [coinA, coinB] := by
  unfold rank
  rw [eligible_coins_ex_eval]
  rw [show sort_eligible [coinA, coinB] = [coinA, coinB] from
    List.mergeSort_of_sorted (by simp [coinLE, coinA, coinB])]
  rfl

/-! ### Claim theorems -/

/-- Claim C4: the ranking output has length at most `top_n` and is sorted
non-increasing by `annualized_funding_rate`; ties between records with
equal `annualized_funding_rate` keep their original universe order in the
sorted list before truncation (the sort is stable: any key-tied pair that
is a sublist of `eligible_coins` is still a sublist of the sorted list). -/
theorem rank_length_sorted_stable (minOI minVol : ℚ) (top_n : ℕ)
    (histOf : String → List Entry) (univ : List Meta) (contexts : List Ctx) :
    (rank minOI minVol top_n histOf univ contexts).length ≤ top_n ∧
    (rank minOI minVol top_n histOf univ contexts).Pairwise
      (fun a b => b.annualized_funding_rate ≤ a.annualized_funding_rate) ∧
    ∀ a b : Coin, a.annualized_funding_rate = b.annualized_funding_rate →
      List.Sublist [a, b] (eligible_coins minOI minVol histOf univ contexts) →
      List.Sublist [a, b] (sort_eligible (eligible_coins minOI minVol histOf univ contexts)) := by
  have htrans : ∀ a b c : Coin, coinLE a b → coinLE b c → coinLE a c := by
    intro a b c hab hbc
    simp only [coinLE, decide_eq_true_eq] at *
    exact le_trans hbc hab
  have htotal : ∀ a b : Coin, coinLE a b || coinLE b a := by
    intro a b
    simp only [coinLE, Bool.or_eq_true, decide_eq_true_eq]
    exact le_total _ _
  refine ⟨?_, ?_, ?_⟩
  · unfold rank
    apply List.length_take_le
  · unfold rank sort_eligible
    have hs := List.sorted_mergeSort htrans htotal
      (eligible_coins minOI minVol histOf univ contexts)
    have hs' := hs.imp (fun h => by simpa [coinLE] using h)
    exact List.Pairwise.sublist (List.take_sublist _ _) hs'
  · intro a b heq hsub
    unfold sort_eligible
    exact List.pair_sublist_mergeSort htrans htotal (by simp [coinLE, heq]) hsub

/-- Witness for C4: a concrete key-tied pair preserved in order by the
sort. -/
theorem rank_length_sorted_stable_witness :
    List.Sublist [coinA, coinB] (sort_eligible (eligible_coins 0 0 histEx uEx cEx)) :=
  (rank_length_sorted_stable 0 0 5 histEx uEx cEx).2.2 coinA coinB rfl
    (by rw [eligible_coins_ex_eval])

/-- Claim C5: every ranked instrument meets both liquidity thresholds
(with threshold values themselves passing the filter) and has a non-empty
funding history; an instrument exactly at both thresholds whose history
parses non-empty is accepted by the loop body. -/
theorem rank_thresholds_and_nonempty_history (minOI minVol : ℚ) (top_n : ℕ)
    (histOf : String → List Entry) (univ : List Meta) (contexts : List Ctx) :
    (∀ co ∈ rank minOI minVol top_n histOf univ contexts,
      minOI ≤ co.open_interest_usd ∧ minVol ≤ co.daily_volume_usd ∧
        histOf co.coin ≠ []) ∧
    (∀ (m : Meta) (ctx : Ctx) (oi px vol f : ℚ),
      ctx.openInterest = some (StrVal.num oi) → ctx.markPx = some (StrVal.num px) →
      ctx.dayNtlVlm = some (StrVal.num vol) → ctx.funding = some (StrVal.num f) →
      oi * px = minOI → vol = minVol →
      (∃ rates : List ℚ, parseRates (histOf m.name) = some rates ∧ rates ≠ []) →
      ∃ co, process_coin minOI minVol histOf m ctx = some co) := by
  constructor
  · intro co hco
    obtain ⟨m, ctx, hp⟩ := mem_rank hco
    obtain ⟨hname, hoi, hvol, hne, -⟩ := process_coin_spec hp
    exact ⟨hoi, hvol, by rw [hname]; exact hne⟩
  · intro m ctx oi px vol f hoi hpx hvol hf hoieq hvoleq hex
    obtain ⟨rates, hrates, hratesne⟩ := hex
    have hne : histOf m.name ≠ [] := by
      intro hnil
      rw [hnil] at hrates
      simp only [parseRates, Option.some.injEq] at hrates
      exact hratesne hrates.symm
    have havg : calculate_average_funding_rate (histOf m.name) =
        some (if rates.isEmpty then 0 else rates.sum / (rates.length : ℚ)) := by
      unfold calculate_average_funding_rate
      rw [if_neg (by simp [List.isEmpty_iff, hne]), hrates]
    simp only [process_coin, ctxGet, hoi, hpx, hvol, hf, Option.getD_some, parseQ,
      Option.bind_eq_bind, Option.some_bind, havg, hrates]
    rw [if_neg (by rw [hoieq, hvoleq]; simp), if_neg (by simp [List.isEmpty_iff, hne])]
    exact ⟨_, rfl⟩

/-- Witness for C5 on the concrete example instrument. -/
theorem rank_thresholds_and_nonempty_history_witness :
    (0 : ℚ) ≤ coinA.open_interest_usd ∧ (0 : ℚ) ≤ coinA.daily_volume_usd ∧
      histEx coinA.coin ≠ [] :=
  (rank_thresholds_and_nonempty_history 0 0 5 histEx uEx cEx).1 coinA
    (by rw [rank_ex_eval]; simp)

/-- Claim C6: each ranked instrument's `avg_funding_rate` is the
equally-weighted arithmetic mean of its fetched funding-history entries,
and `annualized_funding_rate` equals `avg_funding_rate * 3 * 365`
exactly. -/
theorem rank_average_and_annualization (minOI minVol : ℚ) (top_n : ℕ)
    (histOf : String → List Entry) (univ : List Meta) (contexts : List Ctx) :
    ∀ co ∈ rank minOI minVol top_n histOf univ contexts,
      ∃ rates : List ℚ, parseRates (histOf co.coin) = some rates ∧
        co.funding_data_points = rates.length ∧
        co.avg_funding_rate = rates.sum / (rates.length : ℚ) ∧
        co.annualized_funding_rate = co.avg_funding_rate * 3 * 365 := by
  intro co hco
  obtain ⟨m, ctx, hp⟩ := mem_rank hco
  obtain ⟨hname, -, -, -, hpoints, rates, hrates, -, havg, hann⟩ := process_coin_spec hp
  refine ⟨rates, by rw [hname]; exact hrates, ?_, havg, hann⟩
  rw [hpoints, parseRates_length hrates]

/-- Witness for C6 on the concrete example instrument. -/
theorem rank_average_and_annualization_witness :
    ∃ rates : List ℚ, parseRates (histEx coinA.coin) = some rates ∧
      coinA.funding_data_points = rates.length ∧
      coinA.avg_funding_rate = rates.sum / (rates.length : ℚ) ∧
      coinA.annualized_funding_rate = coinA.avg_funding_rate * 3 * 365 :=
  rank_average_and_annualization 0 0 5 histEx uEx cEx coinA (by rw [rank_ex_eval]; simp)

/-- Claim C7: metadata at index `i` is paired with the context at index
`i`, and metadata indices beyond the context list's length are silently
skipped, never an error: the pipeline result is unchanged when the
universe is truncated to the context list's length; in particular with 2
metadata entries and 1 context entry only the first instrument is
considered. -/
theorem rank_pairing_truncates (minOI minVol : ℚ) (top_n : ℕ)
    (histOf : String → List Entry) (univ : List Meta) (contexts : List Ctx) :
    rank minOI minVol top_n histOf univ contexts =
      rank minOI minVol top_n histOf (univ.take contexts.length) contexts ∧
    ∀ (m1 m2 : Meta) (c1 : Ctx),
      rank minOI minVol top_n histOf [m1, m2] [c1] =
        rank minOI minVol top_n histOf [m1] [c1] := by
  constructor
  · unfold rank
    rw [eligible_coins_eq_zip, eligible_coins_eq_zip, eligible_coins_zip_take]
  · intro m1 m2 c1
    unfold rank
    rw [eligible_coins_eq_zip, eligible_coins_eq_zip,
      eligible_coins_zip_take minOI minVol histOf [m1, m2] [c1]]
    rfl

/-- Claim C9: the `endTime` field is omitted from the `fundingHistory`
request payload when `end_time` is `0` (Python truthiness treats `0` like
`None`), and is included exactly for a non-zero value. -/
theorem funding_history_payload_endTime (coin : String) (st : ℤ) :
    (fetch_funding_history_payload coin st (some 0)).endTime = none ∧
    (fetch_funding_history_payload coin st none).endTime = none ∧
    ∀ t : ℤ, t ≠ 0 → (fetch_funding_history_payload coin st (some t)).endTime = some t := by
  refine ⟨rfl, rfl, ?_⟩
  intro t ht
  simp [fetch_funding_history_payload, pyTruthy, ht]

/-- Witness for C9 at a concrete non-zero `end_time`. -/
theorem funding_history_payload_endTime_witness :
    (fetch_funding_history_payload "BTC" 5 (some 7)).endTime = some 7 :=
  (funding_history_payload_endTime "BTC" 5).2.2 7 (by decide)

/-- Claim C10: `calculate_average_funding_rate` is total; it returns `0.0`
for an empty history without dividing, and whenever the mean
`sum(rates)/len(rates)` is computed the divisor `len(rates)` is the
(non-zero) history length. -/
theorem calculate_average_funding_rate_total :
    calculate_average_funding_rate [] = some 0 ∧
    ∀ (h : List Entry) (rates : List ℚ), h ≠ [] → parseRates h = some rates →
      calculate_average_funding_rate h = some (rates.sum / (rates.length : ℚ)) ∧
        rates.length ≠ 0 := by
  refine ⟨rfl, ?_⟩
  intro h rates hne hp
  have hlen := parseRates_length hp
  have hlenne : rates.length ≠ 0 := by
    intro h0
    exact hne (List.length_eq_zero.mp (hlen ▸ h0))
  have hrne : rates ≠ [] := by
    intro hnil
    exact hlenne (by simp [hnil])
  refine ⟨?_, hlenne⟩
  unfold calculate_average_funding_rate
  rw [if_neg (by simp [List.isEmpty_iff, hne]), hp]
  simp [List.isEmpty_iff, hrne]

/-- Witness for C10 on a one-entry history with rate "1". -/
theorem calculate_average_funding_rate_total_witness :
    calculate_average_funding_rate [{ fundingRate := some (StrVal.num 1) }] = some 1 := by
  have h := (calculate_average_funding_rate_total.2
    [{ fundingRate := some (StrVal.num 1) }] [1] (by decide) (by decide)).1
  simpa using h

/-- A bulk fetch that answered HTTP 500. -/
def resp500 : UpstreamResponse := { status := 500, univ := [], contexts := [] }

/-- A successful bulk fetch with an empty universe. -/
def resp200 : UpstreamResponse := { status := 200, univ := [], contexts := [] }

/-- A prior snapshot computed at time 0, stale by time 10000. -/
def snapStale : Snapshot := { coins := [coinA], last_updated := 0, next_update := 3600 }

/-- Claim C1 counterexample: at time 10000 the stored snapshot from time 0
is stale and the caller forces a refresh; the upstream answers 500, so
both refresh attempts fail, yet the handler answers with the stale
snapshot's coins as a success (`okResponse`) instead of propagating any
error — the previous, now-known-stale snapshot is returned silently. -/
theorem read_returns_stale_snapshot_on_failed_refresh :
    resp500.status ≠ 200 ∧
    get_hyperliquid_top_coins 10000 resp500 histEx true (some snapStale) =
      { outcome := ReadOutcome.okResponse [coinA] 0 3600,
        store := some snapStale, refreshes := 2 } := by
  refine ⟨by decide, ?_⟩
  simp [get_hyperliquid_top_coins, update_hyperliquid_data, get_top_funding_rate_coins,
    fetch_meta_and_contexts, resp500, snapStale]
  norm_num

/-- Claim C1 (amended): when a requested refresh fails, `read` raises the
service-unavailable error only if no snapshot exists at all; if a prior
snapshot exists, the refresh error is swallowed
(`update_hyperliquid_data` logs and returns) and `read` silently answers
success with the prior snapshot, stale or not. -/
theorem read_failed_refresh_semantics (now : ℚ) (resp : UpstreamResponse)
    (histOf : String → List Entry) (force : Bool) :
    resp.status ≠ 200 →
    (get_hyperliquid_top_coins now resp histOf force none).outcome = ReadOutcome.http503 ∧
    ∀ snap : Snapshot,
      (get_hyperliquid_top_coins now resp histOf true (some snap)).outcome =
        ReadOutcome.okResponse snap.coins snap.last_updated snap.next_update := by
  intro h
  have hupd : ∀ store : Option Snapshot,
      update_hyperliquid_data now resp histOf store = (store, []) := by
    intro store
    unfold update_hyperliquid_data get_top_funding_rate_coins fetch_meta_and_contexts
    rw [if_pos h]
  constructor
  · simp [get_hyperliquid_top_coins, hupd]
  · intro snap
    by_cases hstale : now - snap.last_updated > 3600 <;>
      simp [get_hyperliquid_top_coins, hupd, hstale]

/-- Witness for the amended C1 at a concrete failing upstream. -/
theorem read_failed_refresh_semantics_witness :
    (get_hyperliquid_top_coins 10000 resp500 histEx true none).outcome =
      ReadOutcome.http503 :=
  (read_failed_refresh_semantics 10000 resp500 histEx true (by decide)).1

/-- Claim C3 counterexample: a single `read` with `force_refresh = true`
against a stale prior snapshot and a failing upstream invokes the refresh
twice (the forced one, then the staleness retry), not exactly once. -/
theorem forced_read_performs_two_refreshes :
    (get_hyperliquid_top_coins 10000 resp500 histEx true (some snapStale)).refreshes = 2 := by
  simp [get_hyperliquid_top_coins, update_hyperliquid_data, get_top_funding_rate_coins,
    fetch_meta_and_contexts, resp500, snapStale]
  norm_num

/-- Claim C3 (amended): two non-forced reads within the validity window of
an existing snapshot perform zero refreshes in total; a forced read
performs exactly one refresh, except that when the forced refresh fails
(non-200 upstream) and the prior snapshot is stale, a second refresh
attempt is made. -/
theorem read_refresh_counts (resp : UpstreamResponse) (histOf : String → List Entry) :
    (∀ (now1 now2 : ℚ) (snap : Snapshot),
      now1 - snap.last_updated ≤ 3600 → now2 - snap.last_updated ≤ 3600 →
      (get_hyperliquid_top_coins now1 resp histOf false (some snap)).refreshes = 0 ∧
      (get_hyperliquid_top_coins now2 resp histOf false
        (get_hyperliquid_top_coins now1 resp histOf false (some snap)).store).refreshes = 0) ∧
    (∀ (now : ℚ) (store : Option Snapshot), resp.status = 200 →
      (get_hyperliquid_top_coins now resp histOf true store).refreshes = 1) ∧
    (∀ now : ℚ, resp.status ≠ 200 →
      (get_hyperliquid_top_coins now resp histOf true none).refreshes = 1) ∧
    (∀ (now : ℚ) (snap : Snapshot), resp.status ≠ 200 →
      now - snap.last_updated ≤ 3600 →
      (get_hyperliquid_top_coins now resp histOf true (some snap)).refreshes = 1) ∧
    (∀ (now : ℚ) (snap : Snapshot), resp.status ≠ 200 →
      now - snap.last_updated > 3600 →
      (get_hyperliquid_top_coins now resp histOf true (some snap)).refreshes = 2) := by
  refine ⟨?_, ?_, ?_, ?_, ?_⟩
  · intro now1 now2 snap h1 h2
    have e1 : get_hyperliquid_top_coins now1 resp histOf false (some snap) =
        { outcome := ReadOutcome.okResponse snap.coins snap.last_updated snap.next_update,
          store := some snap, refreshes := 0 } := by
      simp [get_hyperliquid_top_coins, not_lt.mpr h1]
    refine ⟨by rw [e1], ?_⟩
    rw [e1]
    simp [get_hyperliquid_top_coins, not_lt.mpr h2]
  · intro now store h200
    have hupd : update_hyperliquid_data now resp histOf store =
        (some { coins := rank 10000000 10000000 10 histOf resp.univ resp.contexts,
                last_updated := now, next_update := now + 3600 },
         [DbOp.deleteAll,
          DbOp.insertSnapshot
            { coins := rank 10000000 10000000 10 histOf resp.univ resp.contexts,
              last_updated := now, next_update := now + 3600 }]) := by
      unfold update_hyperliquid_data get_top_funding_rate_coins fetch_meta_and_contexts
      rw [if_neg (by simp [h200])]
    simp [get_hyperliquid_top_coins, hupd]
    norm_num
  · intro now h
    have hupd : update_hyperliquid_data now resp histOf none = (none, []) := by
      unfold update_hyperliquid_data get_top_funding_rate_coins fetch_meta_and_contexts
      rw [if_pos h]
    simp [get_hyperliquid_top_coins, hupd]
  · intro now snap h hfresh
    have hupd : update_hyperliquid_data now resp histOf (some snap) = (some snap, []) := by
      unfold update_hyperliquid_data get_top_funding_rate_coins fetch_meta_and_contexts
      rw [if_pos h]
    simp [get_hyperliquid_top_coins, hupd, not_lt.mpr hfresh]
  · intro now snap h hstale
    have hupd : update_hyperliquid_data now resp histOf (some snap) = (some snap, []) := by
      unfold update_hyperliquid_data get_top_funding_rate_coins fetch_meta_and_contexts
      rw [if_pos h]
    simp [get_hyperliquid_top_coins, hupd, hstale]

/-- Witness for the amended C3: a successful forced read refreshes exactly
once. -/
theorem read_refresh_counts_witness :
    (get_hyperliquid_top_coins 10000 resp200 histEx true (some snapStale)).refreshes = 1 :=
  (read_refresh_counts resp200 histEx).2.1 10000 (some snapStale) (by decide)

/-- Claim C8 counterexample: with a 500 status on the bulk fetch the
pipeline aborts with `UpstreamError` and the store is untouched (no
delete, no insert), but the refresh `update_hyperliquid_data` catches the
error and returns normally — it does not raise `UpstreamError` to its
caller. -/
theorem refresh_swallows_upstream_error :
    get_top_funding_rate_coins 10000000 10000000 10 resp500 histEx =
      Except.error (PipelineError.upstreamError 500) ∧
    update_hyperliquid_data 123 resp500 histEx (some snapStale) = (some snapStale, []) := by
  constructor <;>
    simp [get_top_funding_rate_coins, fetch_meta_and_contexts,
      update_hyperliquid_data, resp500]

/-- Claim C8 (amended): a non-success status on the bulk fetch makes the
service pipeline raise `UpstreamError`, and the refresh then performs no
store operation at all (the prior snapshot, if any, is left untouched),
but completes without re-raising the error. -/
theorem failed_bulk_fetch_leaves_store_untouched (now : ℚ) (store : Option Snapshot)
    (resp : UpstreamResponse) (histOf : String → List Entry) :
    resp.status ≠ 200 →
    get_top_funding_rate_coins 10000000 10000000 10 resp histOf =
      Except.error (PipelineError.upstreamError resp.status) ∧
    update_hyperliquid_data now resp histOf store = (store, []) := by
  intro h
  constructor
  · unfold get_top_funding_rate_coins fetch_meta_and_contexts
    rw [if_pos h]
  · unfold update_hyperliquid_data get_top_funding_rate_coins fetch_meta_and_contexts
    rw [if_pos h]

/-- Witness for the amended C8 at a concrete failing upstream. -/
theorem failed_bulk_fetch_leaves_store_untouched_witness :
    update_hyperliquid_data 123 resp500 histEx none = (none, []) :=
  (failed_bulk_fetch_leaves_store_untouched 123 none resp500 histEx (by decide)).2

/-- A history containing an entry whose `fundingRate` does not parse makes
the whole comprehension raise. -/
theorem parseRates_eq_none : ∀ {es : List Entry},
    (∃ e ∈ es, parseEntryRate e = none) → parseRates es = none := by
  intro es
  induction es with
  | nil => intro h; simp at h
  | cons e es ih =>
    intro h
    obtain ⟨x, hx, hpx⟩ := h
    rcases List.mem_cons.mp hx with rfl | hmem
    · simp [parseRates, hpx]
    · have hrec := ih ⟨x, hmem, hpx⟩
      cases hpe : parseEntryRate e <;> simp [parseRates, hpe, hrec]

/-- A context whose liquidity keys are ample but whose `funding` key is
absent. -/
def ctxBig : Ctx :=
  { openInterest := some (StrVal.num 1000000), markPx := some (StrVal.num 100),
    dayNtlVlm := some (StrVal.num 20000000), funding := none }

/-- A one-entry funding history with rate "1", for every coin. -/
def histPos : String → List Entry := fun _ => [{ fundingRate := some (StrVal.num 1) }]

/-- Claim C2 counterexample: an instrument whose context lacks the
required `funding` key is not skipped: with default thresholds it passes
the filters (the absent key defaults to "0") and appears in the ranking
output. -/
theorem absent_funding_key_is_not_skipped :
    ctxBig.funding = none ∧
    (rank 10000000 10000000 10 histPos [{ name := "BTC" }] [ctxBig]).map
      (fun co => co.coin) = ["BTC"] := by
  refine ⟨rfl, ?_⟩
  norm_num [rank, eligible_coins_eq_zip, eligible_coins_zip, process_coin, parseQ, ctxGet,
    ctxBig, histPos, calculate_average_funding_rate, parseRates, parseEntryRate, sort_eligible]

/-- Claim C2 (amended): the per-instrument error boundary skips an
instrument when a numeric field fails to parse — a `bad` context value or
a missing/bad `fundingRate` in a history entry — and such a skip never
aborts the rest of the run; but an absent context key is not skipped: it
is read back as the string "0", so processing an instrument is unchanged
when every absent key is replaced by a present "0" value. -/
theorem per_instrument_skip_semantics (minOI minVol : ℚ)
    (histOf : String → List Entry) (m : Meta) (ctx : Ctx) :
    ((ctx.openInterest = some StrVal.bad ∨ ctx.markPx = some StrVal.bad ∨
      ctx.dayNtlVlm = some StrVal.bad ∨ ctx.funding = some StrVal.bad) →
      process_coin minOI minVol histOf m ctx = none) ∧
    ((∃ e ∈ histOf m.name, parseEntryRate e = none) →
      process_coin minOI minVol histOf m ctx = none) ∧
    (process_coin minOI minVol histOf m ctx =
      process_coin minOI minVol histOf m
        { openInterest := some (ctxGet ctx.openInterest),
          markPx := some (ctxGet ctx.markPx),
          dayNtlVlm := some (ctxGet ctx.dayNtlVlm),
          funding := some (ctxGet ctx.funding) }) ∧
    (∀ (ms : List Meta) (cs : List Ctx),
      process_coin minOI minVol histOf m ctx = none →
      eligible_coins minOI minVol histOf (m :: ms) (ctx :: cs) =
        eligible_coins minOI minVol histOf ms cs) := by
  refine ⟨?_, ?_, ?_, ?_⟩
  · rintro (h | h | h | h)
    · simp [process_coin, ctxGet, h, parseQ]
    · cases hoi : parseQ (ctxGet ctx.openInterest) with
      | none => simp [process_coin, hoi]
      | some oi => simp [process_coin, hoi, ctxGet, h, parseQ]
    · cases hoi : parseQ (ctxGet ctx.openInterest) with
      | none => simp [process_coin, hoi]
      | some oi =>
        cases hpx : parseQ (ctxGet ctx.markPx) with
        | none => simp [process_coin, hoi, hpx]
        | some px => simp [process_coin, hoi, hpx, ctxGet, h, parseQ]
    · cases hoi : parseQ (ctxGet ctx.openInterest) with
      | none => simp [process_coin, hoi]
      | some oi =>
        cases hpx : parseQ (ctxGet ctx.markPx) with
        | none => simp [process_coin, hoi, hpx]
        | some px =>
          cases hvol : parseQ (ctxGet ctx.dayNtlVlm) with
          | none => simp [process_coin, hoi, hpx, hvol]
          | some vol =>
            simp only [process_coin, hoi, hpx, hvol, Option.bind_eq_bind, Option.some_bind]
            split
            · rfl
            · split
              · rfl
              · cases havg : calculate_average_funding_rate (histOf m.name) with
                | none => simp [havg]
                | some avg => simp [havg, ctxGet, h, parseQ]
  · intro hex
    have hnone : parseRates (histOf m.name) = none := parseRates_eq_none hex
    have hne : histOf m.name ≠ [] := by
      intro hnil
      obtain ⟨e, he, -⟩ := hex
      rw [hnil] at he
      simp at he
    have havg : calculate_average_funding_rate (histOf m.name) = none := by
      unfold calculate_average_funding_rate
      rw [if_neg (by simp [List.isEmpty_iff, hne]), hnone]
    cases hoi : parseQ (ctxGet ctx.openInterest) with
    | none => simp [process_coin, hoi]
    | some oi =>
      cases hpx : parseQ (ctxGet ctx.markPx) with
      | none => simp [process_coin, hoi, hpx]
      | some px =>
        cases hvol : parseQ (ctxGet ctx.dayNtlVlm) with
        | none => simp [process_coin, hoi, hpx, hvol]
        | some vol =>
          simp only [process_coin, hoi, hpx, hvol, Option.bind_eq_bind, Option.some_bind]
          split
          · rfl
          · split
            · rfl
            · simp [havg]
  · rfl
  · intro ms cs hnone
    rw [eligible_coins_eq_zip, eligible_coins_eq_zip]
    simp [eligible_coins_zip, hnone]

/-- A context whose `openInterest` value does not parse. -/
def ctxBadOI : Ctx :=
  { openInterest := some StrVal.bad, markPx := some (StrVal.num 0),
    dayNtlVlm := some (StrVal.num 0), funding := some (StrVal.num 0) }

/-- Witness for the amended C2: a concrete unparsable `openInterest`
skips the instrument. -/
theorem per_instrument_skip_semantics_witness :
    process_coin 0 0 histEx { name := "X" } ctxBadOI = none :=
  (per_instrument_skip_semantics 0 0 histEx { name := "X" } ctxBadOI).1 (Or.inl rfl)

end Hyperliquid
